import Mathlib

/-!
Verification development for the tube-sorting color puzzle.

The definitions below are a shallow embedding of the repository's core
modules:

* `src/utils/level-data.ts` — the `ColorSegment`, `Tube` and `Level` data
  model and the procedural level generator (the five-tier star-threshold
  variant, which is the one imported by the game context);
* `src/utils/game-logic.ts` — the `PourSystem` pour engine
  (`canPour`, `executePour`, `isLevelComplete`, `calculateStars`,
  `isTubeSorted`);
* the solver module (`findOptimalSolution`, `serializeTubes`,
  `shouldSkipMove`, `applyUnlocks`);
* `src/contexts/game-context.tsx` — session state, snapshots,
  `undoMove`, `redoMove`, `requestHint`.

JavaScript arrays become `List`, `number` becomes `Int`/`Nat`/`Rat` as
appropriate (counts are `Nat`; quantities that JS may take negative are
`Int`; the generator's interpolation arithmetic is modelled over `Rat`,
with `Math.round x = ⌊x + 1/2⌋`), strings stay `String`, and `undefined` /
optional fields become `Option`.  In-place mutation of an object found
by `find` is modelled by replacing the first list element whose `id`
matches.
-/

/-- `ColorSegment` from `level-data.ts`: a unit of color with a stable id. -/
structure ColorSegment where
  color : String
  id : String
deriving DecidableEq

/-- The `unlockCondition` attached to a tube.  In the source its `type`
field is the string literal `'sortedTubes'` (the only variant), so the
tag carries no information and is omitted here. -/
structure UnlockCondition where
  requirement : Int
  description : Option String
deriving DecidableEq

/-- `Tube` from `level-data.ts`.  `locked`, `singleColorOnly` and
`starter` are optional booleans in TypeScript; `undefined` and `false`
behave identically everywhere they are read, so they are plain `Bool`
here. -/
structure Tube where
  id : String
  segments : List ColorSegment
  capacity : Nat
  locked : Bool := false
  unlockCondition : Option UnlockCondition := none
  singleColorOnly : Bool := false
  starter : Bool := false
deriving DecidableEq

/-- Result of `PourSystem.canPour`. -/
structure CanPourResult where
  canPour : Bool
  reason : Option String
deriving DecidableEq

/-- Result of `PourSystem.executePour`. -/
structure PourResult where
  success : Bool
  message : Option String
  updatedTubes : Option (List Tube)
  movedSegments : Option (List ColorSegment)
deriving DecidableEq

namespace PourSystem

/-- `PourSystem.canPour` from `game-logic.ts`, with the checks in source
order: empty source, full target, same tube, then top-color comparison
(an empty target always accepts). -/
def canPour (fromTube toTube : Tube) : CanPourResult :=
  if fromTube.segments.length = 0 then
    ⟨false, some "Source tube is empty"⟩
  else if toTube.capacity ≤ toTube.segments.length then
    ⟨false, some "Target tube is full"⟩
  else if fromTube.id = toTube.id then
    ⟨false, some "Cannot pour to same tube"⟩
  else
    match (fromTube.segments.reverse).head? with
    | none => ⟨false, some "Source tube is empty"⟩
    | some topSegment =>
      if toTube.segments.length = 0 then
        ⟨true, none⟩
      else
        match (toTube.segments.reverse).head? with
        | none => ⟨true, none⟩
        | some targetTop =>
          if topSegment.color = targetTop.color then
            ⟨true, none⟩
          else
            ⟨false, some "Colors do not match"⟩

/-- The maximal run of same-color segments at the top of a segment stack,
returned in stack order (bottom-most of the run first) — the
`segmentsToPour` array built by the `for` loop with `unshift` in
`executePour`. -/
def topRunOf (segs : List ColorSegment) : List ColorSegment :=
  match segs.reverse with
  | [] => []
  | top :: rest =>
    ((top :: rest).takeWhile (fun s => s.color = top.color)).reverse

/-- Replace the first element satisfying `p` — the functional reading of
"`find` the object in the cloned array, then mutate it in place". -/
def replaceFirst (p : Tube → Bool) (t' : Tube) : List Tube → List Tube
  | [] => []
  | t :: ts => if p t then t' :: ts else t :: replaceFirst p t' ts

/-- `PourSystem.executePour` from `game-logic.ts`.  Finds the two tubes
by id (first match), re-validates with `canPour`, takes the top
same-color run of the source, moves `min(runLength, availableSpace)` of
its segments onto the target, and returns the updated tube list. -/
def executePour (tubes : List Tube) (fromTubeId toTubeId : String) : PourResult :=
  match tubes.find? (fun t => t.id = fromTubeId), tubes.find? (fun t => t.id = toTubeId) with
  | some fromTube, some toTube =>
    let validation := canPour fromTube toTube
    if validation.canPour then
      let segmentsToPour := topRunOf fromTube.segments
      let availableSpace := toTube.capacity - toTube.segments.length
      let segmentsThatFit := segmentsToPour.take availableSpace
      let newFrom : Tube :=
        { fromTube with
          segments := fromTube.segments.take (fromTube.segments.length - segmentsThatFit.length) }
      let newTo : Tube := { toTube with segments := toTube.segments ++ segmentsThatFit }
      let updatedTubes :=
        replaceFirst (fun t => t.id = toTubeId) newTo
          (replaceFirst (fun t => t.id = fromTubeId) newFrom tubes)
      ⟨true, none, some updatedTubes, some segmentsThatFit⟩
    else
      ⟨false, validation.reason, none, none⟩
  | _, _ => ⟨false, some "Invalid tube IDs", none, none⟩

/-- `PourSystem.isLevelComplete`: every tube is empty, or full and
uniformly colored. -/
def isLevelComplete (tubes : List Tube) : Bool :=
  tubes.all fun tube =>
    match tube.segments with
    | [] => true
    | s0 :: _ =>
      tube.segments.length = tube.capacity &&
        tube.segments.all (fun s => s.color = s0.color)

/-- `PourSystem.isTubeSorted` (and the solver's identical local copy):
empty, or full and uniformly colored. -/
def isTubeSorted (tube : Tube) : Bool :=
  match tube.segments with
  | [] => true
  | s0 :: _ =>
    tube.segments.length = tube.capacity &&
      tube.segments.all (fun s => s.color = s0.color)

/-- One `{moves, timeSeconds}` tier of a star-threshold table. -/
structure StarThreshold where
  moves : Int
  timeSeconds : Int
deriving DecidableEq

/-- The five-tier `starThresholds` table of a `Level`. -/
structure StarThresholds where
  five : StarThreshold
  four : StarThreshold
  three : StarThreshold
  two : StarThreshold
  one : StarThreshold
deriving DecidableEq

/-- `PourSystem.calculateStars`: clamp inputs at 0, then scan the tiers
from 5 stars down to 1 and return the first tier whose move cap and time
cap are both met; 0 if none. -/
def calculateStars (moves timeUsedSeconds : Int) (starThresholds : StarThresholds) : Nat :=
  let safeMoves := max 0 moves
  let safeTimeUsed := max 0 timeUsedSeconds
  let thresholds : List (Nat × StarThreshold) :=
    [(5, starThresholds.five), (4, starThresholds.four), (3, starThresholds.three),
     (2, starThresholds.two), (1, starThresholds.one)]
  match thresholds.find?
      (fun p => decide (safeMoves ≤ p.2.moves) && decide (safeTimeUsed ≤ p.2.timeSeconds)) with
  | some p => p.1
  | none => 0

/-- The total number of color segments held across a container list —
the conserved quantity of the pour invariant. -/
def totalSegments (tubes : List Tube) : Nat :=
  (tubes.map (fun t => t.segments.length)).sum

end PourSystem

/-! ## Solver module (`findOptimalSolution` and helpers) -/

/-- A `{fromTubeId, toTubeId}` move, as produced by the solver. -/
structure TubeMove where
  fromTubeId : String
  toTubeId : String
deriving DecidableEq

/-- Result of `findOptimalSolution`. -/
structure SolveResult where
  solved : Bool
  moves : List TubeMove
  iterations : Nat
deriving DecidableEq

namespace Solver

open PourSystem

/-- The solver's `cloneTubes`: a structural deep copy. -/
def cloneTubes (tubes : List Tube) : List Tube :=
  tubes.map fun tube =>
    { tube with
      segments := tube.segments.map fun s => { s with }
      unlockCondition := tube.unlockCondition.map fun c => { c with } }

theorem cloneTubes_eq (tubes : List Tube) : cloneTubes tubes = tubes := by
  unfold cloneTubes
  induction tubes with
  | nil => rfl
  | cons t ts ih =>
    simp only [List.map_cons, List.map_id', ih]
    cases t with
    | mk id segs cap locked cond sco st =>
      simp [Option.map_id']

/-- `serializeTubes`: lock flag and comma-joined color stack per tube,
joined with `|` — the solver's canonical state key. -/
def serializeTubes (tubes : List Tube) : String :=
  String.intercalate "|" <| tubes.map fun tube =>
    (if tube.locked then "1" else "0") ++ ":" ++
      String.intercalate "," (tube.segments.map (·.color))

/-- `shouldSkipMove`: the solver's cheap move pre-filter (empty or locked
source, full target, JS-falsy top color — the empty string, color
mismatch against a non-empty target, or a full uniform source poured into
an empty target). -/
def shouldSkipMove (fromTube toTube : Tube) : Bool :=
  if fromTube.segments.length = 0 then true
  else if fromTube.locked then true
  else if toTube.capacity ≤ toTube.segments.length then true
  else
    match (fromTube.segments.reverse).head? with
    | none => true
    | some top =>
      if top.color = "" then true
      else if 0 < toTube.segments.length &&
          !(match (toTube.segments.reverse).head? with
            | none => true
            | some t => t.color = top.color) then true
      else if toTube.segments.length = 0 &&
          fromTube.segments.all (fun s => s.color = top.color) &&
          fromTube.segments.length = fromTube.capacity then true
      else false

/-- `applyUnlocks`: count sorted tubes, and unlock (clearing the
condition) every locked tube whose `sortedTubes` requirement is met. -/
def applyUnlocks (tubes : List Tube) : List Tube :=
  let sortedCount := (tubes.filter isTubeSorted).length
  tubes.map fun tube =>
    match tube.unlockCondition with
    | some cond =>
      if tube.locked ∧ (sortedCount : Int) ≥ cond.requirement then
        { tube with locked := false, unlockCondition := none }
      else tube
    | none => tube

/-- A BFS queue entry: a tube configuration and the move path that
produced it. -/
structure SearchNode where
  tubes : List Tube
  moves : List TubeMove
deriving DecidableEq

/-- One iteration of the solver's inner loop body for the pair
`(fromIndex, toIndex)`: skip self-pairs and pre-filtered pairs, count an
iteration for every `executePour` call, and enqueue a successful,
non-empty, unseen result (after unlock propagation) with the move
appended to the path.  Returns the updated iteration count, visited set
and pending queue additions. -/
def expandOne (allTubes : List Tube) (moves : List TubeMove) (fi ti : Nat)
    (iterations : Nat) (visited : List String) (acc : List SearchNode) :
    Nat × List String × List SearchNode :=
  if fi = ti then (iterations, visited, acc)
  else
    match allTubes.get? fi, allTubes.get? ti with
    | some fromTube, some toTube =>
      if shouldSkipMove fromTube toTube then (iterations, visited, acc)
      else
        let pourResult := executePour allTubes fromTube.id toTube.id
        let iterations' := iterations + 1
        if pourResult.success then
          match pourResult.updatedTubes, pourResult.movedSegments with
          | some us, some ms =>
            if ms.isEmpty then (iterations', visited, acc)
            else
              let updatedTubes := applyUnlocks (cloneTubes us)
              let stateKey := serializeTubes updatedTubes
              if visited.contains stateKey then (iterations', visited, acc)
              else
                (iterations', stateKey :: visited,
                  acc ++ [⟨updatedTubes, moves ++ [⟨fromTube.id, toTube.id⟩]⟩])
          | _, _ => (iterations', visited, acc)
        else (iterations', visited, acc)
    | _, _ => (iterations, visited, acc)

/-- Expand one dequeued BFS node over an explicit list of (fromIndex,
toIndex) pairs, mirroring the solver's nested `for` loops by folding
`expandOne` over the pairs. -/
def expandPairs (allTubes : List Tube) (moves : List TubeMove) :
    List (Nat × Nat) → Nat → List String → List SearchNode →
    Nat × List String × List SearchNode
  | [], iterations, visited, acc => (iterations, visited, acc)
  | (fi, ti) :: rest, iterations, visited, acc =>
    let step := expandOne allTubes moves fi ti iterations visited acc
    expandPairs allTubes moves rest step.1 step.2.1 step.2.2

/-- The index pairs enumerated by the solver's nested loops, in order:
`fromIndex` outer, `toIndex` inner, both over `0 .. n-1`. -/
def indexPairs (n : Nat) : List (Nat × Nat) :=
  (List.range n).flatMap fun fi => (List.range n).map fun ti => (fi, ti)

/-- The solver's main loop: dequeue `queue[index]`, return the stored
path when the dequeued state is complete, otherwise enumerate all pairs
and append the new nodes; stop (unsolved) when the queue is exhausted or
the iteration bound is reached.  The `fuel` argument only makes the
recursion structural: the caller passes more fuel than the loop can
consume, so the fuel-exhaustion branch is unreachable. -/
def bfsLoop (maxIterations : Nat) :
    Nat → List SearchNode → Nat → List String → Nat → SolveResult
  | 0, _, _, _, iterations => ⟨false, [], iterations⟩
  | fuel + 1, queue, index, visited, iterations =>
    if iterations < maxIterations then
      match queue.get? index with
      | none => ⟨false, [], iterations⟩
      | some node =>
        if isLevelComplete node.tubes then
          ⟨true, node.moves, iterations⟩
        else
          let step :=
            expandPairs node.tubes node.moves (indexPairs node.tubes.length)
              iterations visited []
          bfsLoop maxIterations fuel (queue ++ step.2.2) (index + 1) step.2.1 step.1
    else ⟨false, [], iterations⟩

/-- `findOptimalSolution`: BFS from the cloned initial configuration,
with the default iteration bound of 250 000. -/
def findOptimalSolution (initialTubes : List Tube)
    (maxIterations : Nat := 250000) : SolveResult :=
  let initialState := cloneTubes initialTubes
  if isLevelComplete initialState then ⟨true, [], 0⟩
  else
    bfsLoop maxIterations (maxIterations + 2)
      [⟨initialState, []⟩] 0 [serializeTubes initialState] 0

/-- Replay one solver move: run `executePour` and, when it succeeds,
apply unlock propagation to the updated tubes — the per-move replay step
named by the solver claims. -/
def applyMove (tubes : List Tube) (mv : TubeMove) : List Tube :=
  let r := executePour tubes mv.fromTubeId mv.toTubeId
  match r.updatedTubes with
  | some us => if r.success then applyUnlocks us else tubes
  | none => tubes

/-- Replay a move sequence in order from a configuration. -/
def replayMoves (tubes : List Tube) (moves : List TubeMove) : List Tube :=
  moves.foldl applyMove tubes

end Solver

/-! ## Game session controller (`game-context.tsx`) -/

/-- One entry of the `userProgress` map: best stars and completion flag
for a level. -/
structure LevelProgress where
  stars : Nat
  completed : Bool
deriving DecidableEq

/-- `GameSnapshot` from `game-context.tsx`: the fields captured for
undo/redo. -/
structure GameSnapshot where
  tubes : List Tube
  moves : Nat
  stars : Nat
  isComplete : Bool
  isFailed : Bool
  selectedTube : Option String
  lastCoinsEarned : Int
  optimalMoveCount : Option Nat
deriving DecidableEq

/-- `GameState` from `game-context.tsx`. -/
structure GameState where
  currentLevel : Int
  tubes : List Tube
  moves : Nat
  stars : Nat
  isComplete : Bool
  isFailed : Bool
  selectedTube : Option String
  userProgress : List (Int × LevelProgress)
  coinBalance : Int
  lastCoinsEarned : Int
  optimalMoveCount : Option Nat
  hintMove : Option TubeMove
  hintsUsed : Nat
deriving DecidableEq

/-- The provider's session state: the game state plus the undo and redo
stacks (`moveHistory`, `redoHistory`), which grow at the tail. -/
structure Session where
  gameState : GameState
  moveHistory : List GameSnapshot
  redoHistory : List GameSnapshot
deriving DecidableEq

/-- Result of `requestHint` (the resolved promise value). -/
structure HintOutcome where
  move : Option TubeMove
  error : Option String
deriving DecidableEq

namespace GameContext

/-- `createSnapshot`: capture the snapshot fields of the current game
state (the provider's `cloneTubes` is the same deep copy as the
solver's, so `Solver.cloneTubes` is reused here). -/
def createSnapshot (gs : GameState) : GameSnapshot :=
  { tubes := Solver.cloneTubes gs.tubes
    moves := gs.moves
    stars := gs.stars
    isComplete := gs.isComplete
    isFailed := gs.isFailed
    selectedTube := gs.selectedTube
    lastCoinsEarned := gs.lastCoinsEarned
    optimalMoveCount := gs.optimalMoveCount }

/-- `undoMove`: with a non-empty history, push the current snapshot onto
the redo stack, pop the last history snapshot, and restore its fields
(`selectedTube` and `hintMove` are cleared; `optimalMoveCount` keeps the
live value when the snapshot has none; fields outside the snapshot are
untouched). -/
def undoMove (s : Session) : Session :=
  match s.moveHistory.getLast? with
  | none => s
  | some previousSnapshot =>
    let currentSnapshot := createSnapshot s.gameState
    { gameState := { s.gameState with
        tubes := Solver.cloneTubes previousSnapshot.tubes
        moves := previousSnapshot.moves
        stars := previousSnapshot.stars
        isComplete := previousSnapshot.isComplete
        isFailed := previousSnapshot.isFailed
        selectedTube := none
        lastCoinsEarned := previousSnapshot.lastCoinsEarned
        optimalMoveCount :=
          previousSnapshot.optimalMoveCount.orElse fun _ => s.gameState.optimalMoveCount
        hintMove := none }
      moveHistory := s.moveHistory.dropLast
      redoHistory := s.redoHistory ++ [currentSnapshot] }

/-- `redoMove`: the mirror of `undoMove` on the redo stack. -/
def redoMove (s : Session) : Session :=
  match s.redoHistory.getLast? with
  | none => s
  | some nextSnapshot =>
    let currentSnapshot := createSnapshot s.gameState
    { gameState := { s.gameState with
        tubes := Solver.cloneTubes nextSnapshot.tubes
        moves := nextSnapshot.moves
        stars := nextSnapshot.stars
        isComplete := nextSnapshot.isComplete
        isFailed := nextSnapshot.isFailed
        selectedTube := none
        lastCoinsEarned := nextSnapshot.lastCoinsEarned
        optimalMoveCount :=
          nextSnapshot.optimalMoveCount.orElse fun _ => s.gameState.optimalMoveCount
        hintMove := none }
      moveHistory := s.moveHistory ++ [currentSnapshot]
      redoHistory := s.redoHistory.dropLast }

/-- `requestHint`, modelled synchronously: the deferred `computeHint`
closure runs against the same state it captured, so the re-checks inside
`setGameState` (same level, enough coins, hints remaining) are evaluated
on that state.  `computeSolutionForTubes` is the solver at bound
350 000 (its memo cache is transparent for a pure function and is not
modelled). -/
def requestHint (s : Session) : HintOutcome × Session :=
  let gs := s.gameState
  if gs.isComplete || gs.isFailed then
    (⟨none, none⟩, s)
  else if 3 ≤ gs.hintsUsed then
    (⟨none, some "You have depleted hints in this level."⟩, s)
  else if gs.coinBalance < 5 then
    (⟨none, some "Not enough diamonds for a hint."⟩, s)
  else
    let solution := Solver.findOptimalSolution (Solver.cloneTubes gs.tubes) 350000
    if solution.solved && 0 < solution.moves.length then
      match solution.moves.head? with
      | some nextMove =>
        if gs.coinBalance < 5 || 3 ≤ gs.hintsUsed then
          (⟨some nextMove, none⟩, s)
        else
          let balance := max 0 (gs.coinBalance - 5)
          let gs' := { gs with
            hintMove := some nextMove
            coinBalance := balance
            hintsUsed := gs.hintsUsed + 1
            optimalMoveCount :=
              if gs.optimalMoveCount = none ∧ solution.solved = true then
                some solution.moves.length
              else gs.optimalMoveCount }
          (⟨some nextMove, none⟩, { s with gameState := gs' })
      | none =>
        (⟨none, some "No hint available right now. Try a different pour!"⟩, s)
    else
      let gs' := if gs.hintMove = none then gs else { gs with hintMove := none }
      (⟨none, some "No hint available right now. Try a different pour!"⟩,
        { s with gameState := gs' })

end GameContext

/-! ## Procedural level generator (`level-data.ts`, five-tier variant)

`Level` is embedded with the fields the claims observe; the
presentation-only `name` and `difficulty` strings are omitted.  JS
`number` arithmetic is modelled over `Int`/`Rat` (`Math.round x`
is `round x = ⌊x + 1/2⌋`; the literals `0.35, 0.5, 0.7, 0.85` are the
corresponding rationals).  The generation shuffle
(`shuffleArray`, driven by `Math.random`) is a parameter: theorems
quantify over any outcome that is a permutation of its input. -/

/-- The embedded `Level` template. -/
structure Level where
  id : Int
  tubes : List Tube
  starThresholds : PourSystem.StarThresholds
  moveLimit : Int
  timeLimitSeconds : Int
  randomizeOnStart : Bool
deriving DecidableEq

namespace LevelData

/-- The fixed 14-entry master color palette `ACCESSIBLE_COLORS`. -/
def ACCESSIBLE_COLORS : List String :=
  ["#FF0000", "#00FFFF", "#0000FF", "#FF1493", "#00FF00", "#7F0000", "#2E9AC3",
   "#FF8C00", "#FFB6C1", "#1E90FF", "#FA8072", "#DDA0DD", "#FFA500", "#FFFF00"]

/-- `getColorOffset`: the palette offset advances 3 entries per level
(JS `%` is truncated remainder, `Int.tmod`). -/
def getColorOffset (levelId : Int) : Int :=
  if ACCESSIBLE_COLORS.length = 0 then 0
  else ((levelId - 1) * 3).tmod (ACCESSIBLE_COLORS.length : Int)

/-- `getAccessibleColors`: `safeCount` consecutive palette entries
starting at the level's offset, wrapping modulo the palette size. -/
def getAccessibleColors (levelId count : Int) : List String :=
  if ACCESSIBLE_COLORS.length = 0 then []
  else
    let safeCount := min count (ACCESSIBLE_COLORS.length : Int)
    let offset := getColorOffset levelId
    (List.range safeCount.toNat).map fun index =>
      ACCESSIBLE_COLORS.getD ((offset + (index : Int)).tmod (ACCESSIBLE_COLORS.length : Int)).toNat ""

/-- `getGenerationColors`: the palette slice, or the repeat-from-start
fallback when more colors are required than the palette holds. -/
def getGenerationColors (levelId requiredColors : Int) : List String :=
  let colors := getAccessibleColors levelId requiredColors
  if (colors.length : Int) = requiredColors then colors
  else
    (List.range requiredColors.toNat).map fun i =>
      ACCESSIBLE_COLORS.getD (i % ACCESSIBLE_COLORS.length) ""

/-- `clamp(value, min, max)` from `level-data.ts`. -/
def clamp (value minValue maxValue : Int) : Int :=
  max minValue (min maxValue value)

/-- `interpolateRange`: linear interpolation across an index band,
rounded to the nearest integer. -/
def interpolateRange (level startLevel endLevel minValue maxValue : Int) : Int :=
  if level ≤ startLevel then minValue
  else if endLevel ≤ level then maxValue
  else
    let progress : Rat := ((level : Rat) - (startLevel : Rat)) / ((endLevel : Rat) - (startLevel : Rat))
    round ((minValue : Rat) + ((maxValue : Rat) - (minValue : Rat)) * progress)

/-- `getColorCountForLevel`: 2–6 colors in levels 1–50, 7–8 in 51–150,
9–10 in 151–300, 11 up to 450, then 12. -/
def getColorCountForLevel (levelId : Int) : Int :=
  if levelId ≤ 50 then clamp (interpolateRange levelId 1 50 2 6) 2 6
  else if levelId ≤ 150 then clamp (interpolateRange levelId 51 150 7 8) 7 8
  else if levelId ≤ 300 then clamp (interpolateRange levelId 151 300 9 10) 9 10
  else if levelId ≤ 450 then 11
  else 12

/-- `getContainerCountForLevel`: a band-interpolated base, floored at
`colorCount` plus a band-dependent slack (at least one spare tube). -/
def getContainerCountForLevel (levelId colorCount : Int) : Int :=
  if levelId ≤ 50 then max (clamp (interpolateRange levelId 1 50 4 8) 4 8) (colorCount + 1)
  else if levelId ≤ 150 then max (clamp (interpolateRange levelId 51 150 9 12) 9 12) (colorCount + 2)
  else if levelId ≤ 300 then max (clamp (interpolateRange levelId 151 300 12 13) 12 13) (colorCount + 2)
  else if levelId ≤ 450 then max (clamp (interpolateRange levelId 301 450 14 15) 14 15) (colorCount + 3)
  else max 16 (colorCount + 4)

/-- `getMoveLimitForLevel` (five-tier variant): the optimal-move
estimate plus a flat buffer of 3. -/
def getMoveLimitForLevel (_levelId optimalMoves : Int) : Int :=
  optimalMoves + 3

/-- `getTimeLimitForLevel` (five-tier variant): 15 s at level 1 rising
linearly to 300 s at level 500. -/
def getTimeLimitForLevel (levelId : Int) : Int :=
  if levelId ≤ 1 then 15
  else if 500 ≤ levelId then 300
  else
    let progress : Rat := ((levelId : Rat) - 1) / ((500 : Rat) - 1)
    round ((15 : Rat) + ((300 : Rat) - 15) * progress)

/-- Modify the first element satisfying `p` (the functional reading of
"`find` the tube, then mutate it"). -/
def modifyFirst (p : Tube → Bool) (f : Tube → Tube) : List Tube → List Tube
  | [] => []
  | t :: ts => if p t then f t :: ts else t :: modifyFirst p f ts

/-- `applySpecialContainers`: in levels 151–300 the first empty tube of
the padding block is marked as the unlocked `starter` tube. -/
def applySpecialContainers (levelId : Int) (emptyTubes : List Tube) : List Tube :=
  if emptyTubes.length = 0 then emptyTubes
  else if 151 ≤ levelId ∧ levelId ≤ 300 then
    modifyFirst (fun t => t.segments.isEmpty)
      (fun t => { t with locked := false, unlockCondition := none,
                         singleColorOnly := false, starter := true })
      emptyTubes
  else emptyTubes

/-- The `allSegments` pool built by `generateLevel`: `baseCapacity`
segments of each selected color, with the source's `seg-…` ids. -/
def allSegmentsFor (id : Int) (selectedColors : List String) (baseCapacity : Nat) :
    List ColorSegment :=
  selectedColors.enum.flatMap fun ci =>
    (List.range baseCapacity).map fun i =>
      ⟨ci.2, "seg-" ++ toString id ++ "-" ++ toString ci.1 ++ "-" ++ toString i⟩

/-- `generateLevel` (five-tier variant), with the shuffle outcome as an
explicit parameter: one filled tube per color dealt `baseCapacity`
segments at a time from the shuffled pool, padded with empty tubes, the
starter marking, and the derived move/time budgets and star tiers. -/
def generateLevel (id : Int) (shuffleOutcome : List ColorSegment → List ColorSegment) : Level :=
  let baseCapacity : Nat := 4
  let numColors := getColorCountForLevel id
  let totalContainers := getContainerCountForLevel id numColors
  let numFilledTubes := numColors
  let numEmptyTubes := max 1 (totalContainers - numFilledTubes)
  let selectedColors := getGenerationColors id numColors
  let allSegments := allSegmentsFor id selectedColors baseCapacity
  let shuffledSegments := shuffleOutcome allSegments
  let tubes := (List.range numFilledTubes.toNat).map fun i =>
    ({ id := "tube-" ++ toString id ++ "-" ++ toString (i + 1)
       capacity := baseCapacity
       segments := (shuffledSegments.drop (i * baseCapacity)).take baseCapacity } : Tube)
  let emptyTubes := (List.range numEmptyTubes.toNat).map fun i =>
    ({ id := "tube-" ++ toString id ++ "-" ++ toString (numFilledTubes.toNat + i + 1)
       capacity := baseCapacity
       segments := [] } : Tube)
  let emptyTubes := applySpecialContainers id emptyTubes
  let optimalMoves := numColors * 2 + numEmptyTubes / 2 + max 1 (numColors / 2)
  let moveLimit := getMoveLimitForLevel id optimalMoves
  let timeLimitSeconds := getTimeLimitForLevel id
  let clampMoves (value : Int) : Int := min value moveLimit
  let computeTimeThreshold (ratio : Rat) : Int :=
    clamp (max 1 (round ((timeLimitSeconds : Rat) * ratio))) 1 timeLimitSeconds
  let t0 := computeTimeThreshold (35 / 100)
  let t1 := computeTimeThreshold (50 / 100)
  let t2 := computeTimeThreshold (70 / 100)
  let t3 := computeTimeThreshold (85 / 100)
  let t4 := computeTimeThreshold 1
  { id := id
    tubes := tubes ++ emptyTubes
    starThresholds :=
      { five := ⟨clampMoves optimalMoves, t0⟩
        four := ⟨clampMoves (optimalMoves + 1), max t0 t1⟩
        three := ⟨clampMoves (optimalMoves + 2), max t1 t2⟩
        two := ⟨clampMoves (optimalMoves + 3), max t2 t3⟩
        one := ⟨moveLimit, max t3 t4⟩ }
    moveLimit := moveLimit
    timeLimitSeconds := timeLimitSeconds
    randomizeOnStart := 200 ≤ id }

end LevelData

/-! ## Concrete fixtures used by witnesses and counterexamples -/

/-- A locked, non-empty source tube. -/
def lockedSourceTube : Tube :=
  { id := "a", segments := [⟨"r", "s1"⟩], capacity := 2, locked := true }

/-- An empty, unlocked target tube. -/
def emptyTargetTube : Tube :=
  { id := "b", segments := [], capacity := 2 }

/-- First tube of `smallBoard`: one red segment, capacity 2. -/
def smallBoardT1 : Tube := { id := "t1", segments := [⟨"r", "p1"⟩], capacity := 2 }

/-- Second tube of `smallBoard`: one red segment, capacity 2. -/
def smallBoardT2 : Tube := { id := "t2", segments := [⟨"r", "p2"⟩], capacity := 2 }

/-- A two-tube board `[r] / [r]` of capacity 2: pouring tube 1 into
tube 2 completes it. -/
def smallBoard : List Tube := [smallBoardT1, smallBoardT2]

/-- A sample five-tier threshold table. -/
def sampleThresholds : PourSystem.StarThresholds :=
  { five := ⟨3, 10⟩, four := ⟨4, 20⟩, three := ⟨5, 30⟩, two := ⟨6, 40⟩, one := ⟨8, 60⟩ }

/-- The solver-optimality counterexample board: a locked full mixed tube
`L = [b, r]` whose `sortedTubes` requirement (1) is met by any first
move, plus `X = [r]`, `Y = [b]` and an empty tube, all of capacity 2. -/
def lockedBoard : List Tube :=
  [ { id := "L", segments := [⟨"b", "sb"⟩, ⟨"r", "sr"⟩], capacity := 2, locked := true,
      unlockCondition := some ⟨1, none⟩ },
    { id := "X", segments := [⟨"r", "x1"⟩], capacity := 2 },
    { id := "Y", segments := [⟨"b", "y1"⟩], capacity := 2 },
    { id := "E", segments := [], capacity := 2 } ]

/-- The two-pour sequence that empties `L` directly (`executePour` does
not check locks): `L → X` then `L → Y`. -/
def lockedBoardShortSolution : List TubeMove :=
  [⟨"L", "X"⟩, ⟨"L", "Y"⟩]

/-- A game state mid-level: one move played, three hints used. -/
def exhaustedHintsState : GameState :=
  { currentLevel := 1
    tubes := smallBoard
    moves := 1
    stars := 0
    isComplete := false
    isFailed := false
    selectedTube := none
    userProgress := []
    coinBalance := 50
    lastCoinsEarned := 0
    optimalMoveCount := some 1
    hintMove := none
    hintsUsed := 3 }

/-- A session sitting at `exhaustedHintsState` with empty histories. -/
def exhaustedHintsSession : Session :=
  { gameState := exhaustedHintsState, moveHistory := [], redoHistory := [] }

/-- A session whose undo history holds one snapshot. -/
def undoableSession : Session :=
  { gameState :=
      { currentLevel := 1
        tubes := [ { id := "t1", segments := [], capacity := 2 },
                   { id := "t2", segments := [⟨"r", "p1"⟩, ⟨"r", "p2"⟩], capacity := 2 } ]
        moves := 1
        stars := 2
        isComplete := true
        isFailed := false
        selectedTube := none
        userProgress := [(1, ⟨2, true⟩)]
        coinBalance := 10
        lastCoinsEarned := 10
        optimalMoveCount := some 1
        hintMove := none
        hintsUsed := 0 }
    moveHistory :=
      [ { tubes := smallBoard
          moves := 0
          stars := 0
          isComplete := false
          isFailed := false
          selectedTube := none
          lastCoinsEarned := 0
          optimalMoveCount := none } ]
    redoHistory := [] }

/-! ## Pour-engine lemmas -/

namespace PourSystem

/-- Characterization of `canPour`: allowed exactly when the source is
non-empty, the target has room, the tubes differ, and the target is
empty or the top colors agree.  Locks are not consulted. -/
theorem canPour_spec (A B : Tube) :
    (canPour A B).canPour = true ↔
      A.segments ≠ [] ∧ B.segments.length < B.capacity ∧ A.id ≠ B.id ∧
        (B.segments = [] ∨
          A.segments.getLast?.map (·.color) = B.segments.getLast?.map (·.color)) := by
  unfold canPour
  rcases hA : A.segments.reverse with _ | ⟨topA, restA⟩
  · have : A.segments = [] := by simpa using congrArg List.reverse hA
    simp [this]
  · have hAne : A.segments ≠ [] := by
      intro h; rw [h] at hA; simp at hA
    have hAlast : A.segments.getLast? = some topA := by
      rw [← List.head?_reverse, hA]; rfl
    rcases hB : B.segments.reverse with _ | ⟨topB, restB⟩
    · have hBe : B.segments = [] := by simpa using congrArg List.reverse hB
      simp only [hA, hB, hBe]
      by_cases hfull : B.capacity ≤ 0
      · simp [hfull, hAne]
      · by_cases hid : A.id = B.id
        · simp [hfull, hid, hAne]
        · simp [hfull, hid, hAne]
          omega
    · have hBne : B.segments ≠ [] := by
        intro h; rw [h] at hB; simp at hB
      have hBlast : B.segments.getLast? = some topB := by
        rw [← List.head?_reverse, hB]; rfl
      have hBlen : B.segments.length ≠ 0 := fun h => hBne (List.length_eq_zero.mp h)
      simp only [hA, hB, hAlast, hBlast]
      by_cases hlen0 : A.segments.length = 0
      · exact absurd (List.length_eq_zero.mp hlen0) hAne
      · by_cases hfull : B.capacity ≤ B.segments.length
        · simp [hlen0, hfull, hAne, hBne]
        · by_cases hid : A.id = B.id
          · simp [hlen0, hfull, hid, hAne, hBne]
          · by_cases hcol : topA.color = topB.color
            · simp [hlen0, hfull, hid, hcol, hAne, hBne, hBlen]
              omega
            · simp [hlen0, hfull, hid, hcol, hAne, hBne, hBlen]

/-- A declined `canPour` always carries a reason message. -/
theorem canPour_false_reason (A B : Tube) (h : (canPour A B).canPour = false) :
    ∃ m, (canPour A B).reason = some m := by
  unfold canPour at h ⊢
  repeat' split at h
  all_goals repeat' split
  all_goals simp_all

/-- The `takeWhile` prefix is never longer than the list. -/
theorem takeWhile_len_le (p : ColorSegment → Bool) (l : List ColorSegment) :
    (l.takeWhile p).length ≤ l.length := by
  induction l with
  | nil => simp
  | cons a l ih =>
    by_cases h : p a
    · simp only [List.takeWhile_cons, h]
      simpa using ih
    · simp [List.takeWhile_cons, h]

/-- The top run is part of the stack. -/
theorem topRunOf_length_le (segs : List ColorSegment) :
    (topRunOf segs).length ≤ segs.length := by
  unfold topRunOf
  rcases h : segs.reverse with _ | ⟨top, rest⟩
  · simp
  · have : segs.length = (top :: rest).length := by
      rw [← h, List.length_reverse]
    rw [this]
    simpa using takeWhile_len_le (fun s => s.color = top.color) (top :: rest)

/-- Every segment of the top run carries the stack's top color. -/
theorem topRunOf_color (segs : List ColorSegment) (top : ColorSegment)
    (htop : segs.getLast? = some top) :
    ∀ sgm ∈ topRunOf segs, sgm.color = top.color := by
  intro sgm hsgm
  unfold topRunOf at hsgm
  rcases h : segs.reverse with _ | ⟨top', rest⟩
  · rw [h] at hsgm; simp at hsgm
  · rw [h] at hsgm
    have : segs.getLast? = some top' := by rw [← List.head?_reverse, h]; rfl
    have htop' : top' = top := by rw [this] at htop; injection htop
    rw [List.mem_reverse] at hsgm
    have := List.mem_takeWhile_imp hsgm
    simpa [htop'] using this

end PourSystem

namespace PourSystem

/-- Replacing the first `p`-match trades its segment count for the
replacement's. -/
theorem totalSegments_replaceFirst (p : Tube → Bool) (t' x : Tube) (l : List Tube)
    (h : l.find? p = some x) :
    totalSegments (replaceFirst p t' l) + x.segments.length
      = totalSegments l + t'.segments.length := by
  induction l with
  | nil => simp at h
  | cons a l ih =>
    by_cases hp : p a
    · rw [List.find?_cons_of_pos _ hp] at h
      injection h with h
      subst h
      simp [replaceFirst, hp, totalSegments]
      omega
    · rw [List.find?_cons_of_neg _ hp] at h
      have := ih h
      simp only [replaceFirst, hp, if_neg, Bool.false_eq_true, not_false_eq_true, totalSegments,
        List.map_cons, List.sum_cons] at *
      omega

/-- `find?` for a predicate disjoint from the replacement is unchanged. -/
theorem find?_replaceFirst_other (p q : Tube → Bool) (t' : Tube) (l : List Tube)
    (hq : q t' = false) (hpq : ∀ z, p z = true → q z = false) :
    (replaceFirst p t' l).find? q = l.find? q := by
  induction l with
  | nil => rfl
  | cons a l ih =>
    by_cases hp : p a
    · simp only [replaceFirst, hp, if_pos]
      rw [List.find?_cons_of_neg _ (by simp [hq]), List.find?_cons_of_neg _ (by simp [hpq a hp])]
    · simp only [replaceFirst, hp, if_neg, Bool.false_eq_true, not_false_eq_true]
      by_cases hqa : q a
      · rw [List.find?_cons_of_pos _ hqa, List.find?_cons_of_pos _ hqa]
      · rw [List.find?_cons_of_neg _ hqa, List.find?_cons_of_neg _ hqa, ih]

/-- After replacing the first `p`-match, `find? p` returns the
replacement (when a match existed and the replacement matches). -/
theorem find?_replaceFirst_self (p : Tube → Bool) (t' x : Tube) (l : List Tube)
    (hp : p t' = true) (h : l.find? p = some x) :
    (replaceFirst p t' l).find? p = some t' := by
  induction l with
  | nil => simp at h
  | cons a l ih =>
    by_cases hpa : p a
    · simp only [replaceFirst, hpa, if_pos]
      rw [List.find?_cons_of_pos _ hp]
    · rw [List.find?_cons_of_neg _ hpa] at h
      simp only [replaceFirst, hpa, if_neg, Bool.false_eq_true, not_false_eq_true]
      rw [List.find?_cons_of_neg _ hpa]
      exact ih h

/-- Members of the replaced list are the replacement or old members. -/
theorem mem_replaceFirst (p : Tube → Bool) (t' u : Tube) (l : List Tube)
    (h : u ∈ replaceFirst p t' l) : u = t' ∨ u ∈ l := by
  induction l with
  | nil => simp [replaceFirst] at h
  | cons a l ih =>
    by_cases hp : p a
    · simp only [replaceFirst, hp, if_pos, List.mem_cons] at h
      rcases h with h | h
      · exact Or.inl h
      · exact Or.inr (List.mem_cons_of_mem _ h)
    · simp only [replaceFirst, hp, if_neg, Bool.false_eq_true, not_false_eq_true,
        List.mem_cons] at h
      rcases h with h | h
      · exact Or.inr (h ▸ List.mem_cons_self a l)
      · rcases ih h with h' | h'
        · exact Or.inl h'
        · exact Or.inr (List.mem_cons_of_mem _ h')

/-- Normal form of a successful `executePour`. -/
theorem executePour_success_eq (tubes : List Tube) (f t : String) (A B : Tube)
    (hA : tubes.find? (fun u => u.id = f) = some A)
    (hB : tubes.find? (fun u => u.id = t) = some B)
    (hcp : (canPour A B).canPour = true) :
    executePour tubes f t =
      ⟨true, none,
        some (replaceFirst (fun u => u.id = t)
          { B with segments :=
              B.segments ++ (topRunOf A.segments).take (B.capacity - B.segments.length) }
          (replaceFirst (fun u => u.id = f)
            { A with segments :=
                A.segments.take (A.segments.length -
                  ((topRunOf A.segments).take (B.capacity - B.segments.length)).length) }
            tubes)),
        some ((topRunOf A.segments).take (B.capacity - B.segments.length))⟩ := by
  unfold executePour
  rw [hA, hB]
  simp only [hcp, if_pos]

/-- A successful `executePour` presupposes both tubes found and
`canPour` passing. -/
theorem executePour_success_inv (tubes : List Tube) (f t : String)
    (hs : (executePour tubes f t).success = true) :
    ∃ A B, tubes.find? (fun u => u.id = f) = some A ∧
      tubes.find? (fun u => u.id = t) = some B ∧ (canPour A B).canPour = true := by
  unfold executePour at hs
  rcases hA : tubes.find? (fun u => u.id = f) with _ | A <;> rw [hA] at hs
  · simp at hs
  · rcases hB : tubes.find? (fun u => u.id = t) with _ | B <;> rw [hB] at hs
    · simp at hs
    · by_cases hcp : (canPour A B).canPour
      · exact ⟨A, B, hA, hB, hcp⟩
      · simp only [Bool.not_eq_true] at hcp
        simp [hcp] at hs

end PourSystem

namespace PourSystem

/-- C2 (counterexample): the claim says `canPour` fails when the source
or target is locked, but `canPour` never reads `locked` — a locked,
non-empty source may pour into an unlocked empty target. -/
theorem canPour_locked_allowed_counterexample :
    lockedSourceTube.locked = true ∧
      (canPour lockedSourceTube emptyTargetTube).canPour = true := by
  decide

/-- C2 (amended): `canPour` fails exactly when the source is empty, the
two ids coincide, or the target is at capacity; otherwise an empty
target always accepts, and a non-empty target accepts exactly when the
top colors agree.  (Locks are not consulted by `canPour`.) -/
theorem canPour_rules (A B : Tube) :
    (canPour A B).canPour = true ↔
      A.segments ≠ [] ∧ B.segments.length < B.capacity ∧ A.id ≠ B.id ∧
        (B.segments = [] ∨
          A.segments.getLast?.map (·.color) = B.segments.getLast?.map (·.color)) :=
  canPour_spec A B

/-- C3: a successful pour (partial or full) conserves the total segment
count across the container list — segments are only relocated. -/
theorem executePour_conserves_segments (tubes : List Tube) (f t : String) (us : List Tube)
    (hs : (executePour tubes f t).success = true)
    (hus : (executePour tubes f t).updatedTubes = some us) :
    totalSegments us = totalSegments tubes := by
  obtain ⟨A, B, hA, hB, hcp⟩ := executePour_success_inv tubes f t hs
  rw [executePour_success_eq tubes f t A B hA hB hcp] at hus
  injection hus with hus
  subst hus
  have hAid : A.id = f := by have := List.find?_some hA; simpa using this
  have hBid : B.id = t := by have := List.find?_some hB; simpa using this
  obtain ⟨hAne, hBroom, hABid, -⟩ := (canPour_spec A B).mp hcp
  have hft : f ≠ t := fun h => hABid (by rw [hAid, hBid, h])
  have hrun := topRunOf_length_le A.segments
  obtain ⟨K, hKdef⟩ : ∃ K,
      ((topRunOf A.segments).take (B.capacity - B.segments.length)).length = K := ⟨_, rfl⟩
  have hKval : K ≤ (topRunOf A.segments).length := by
    rw [← hKdef, List.length_take]
    omega
  rw [hKdef]
  have h1 := totalSegments_replaceFirst (fun u => u.id = f)
    { A with segments := A.segments.take (A.segments.length - K) } A tubes hA
  have e1 : ({ A with segments := A.segments.take (A.segments.length - K) } : Tube).segments.length
      = A.segments.length - K := by
    simp [List.length_take]
  have hfind1 : (replaceFirst (fun u => u.id = f)
      { A with segments := A.segments.take (A.segments.length - K) }
      tubes).find? (fun u => u.id = t) = some B := by
    rw [find?_replaceFirst_other (fun u => u.id = f) (fun u => u.id = t)]
    · exact hB
    · simp [hAid, hft]
    · intro z hz
      have : z.id = f := of_decide_eq_true hz
      simp [this, hft]
  have h2 := totalSegments_replaceFirst (fun u => u.id = t)
    { B with segments :=
        B.segments ++ (topRunOf A.segments).take (B.capacity - B.segments.length) }
    B _ hfind1
  have e2 : ({ B with segments :=
      B.segments ++ (topRunOf A.segments).take (B.capacity - B.segments.length) } : Tube).segments.length
      = B.segments.length + K := by
    simp [hKdef]
  omega

/-- C3 (witness): the pour `t1 → t2` on `smallBoard` succeeds and
conserves the two boards' total segment count. -/
theorem executePour_conserves_segments_witness :
    (executePour smallBoard "t1" "t2").success = true ∧
      (executePour smallBoard "t1" "t2").updatedTubes =
        some [{ smallBoardT1 with segments := [] },
              { smallBoardT2 with segments := [⟨"r", "p2"⟩, ⟨"r", "p1"⟩] }] ∧
      totalSegments [{ smallBoardT1 with segments := [] },
              { smallBoardT2 with segments := [⟨"r", "p2"⟩, ⟨"r", "p1"⟩] }]
        = totalSegments smallBoard :=
  ⟨by decide, by decide,
    executePour_conserves_segments smallBoard "t1" "t2" _ (by decide) (by decide)⟩

end PourSystem

namespace PourSystem

/-- C4: assuming every container respects its capacity, a successful
pour moves exactly `min(runLength, availableSpace)` segments — all of
the source's top color — taking them from the top of the source and
appending them to the target, and every resulting container still
respects its capacity. -/
theorem executePour_transfer (tubes : List Tube) (f t : String) (A B : Tube)
    (hcap : ∀ u ∈ tubes, u.segments.length ≤ u.capacity)
    (hA : tubes.find? (fun u => u.id = f) = some A)
    (hB : tubes.find? (fun u => u.id = t) = some B)
    (hs : (executePour tubes f t).success = true) :
    ∃ us ms,
      (executePour tubes f t).updatedTubes = some us ∧
      (executePour tubes f t).movedSegments = some ms ∧
      ms.length = min (topRunOf A.segments).length (B.capacity - B.segments.length) ∧
      us.find? (fun u => u.id = f)
        = some { A with segments := A.segments.take (A.segments.length - ms.length) } ∧
      us.find? (fun u => u.id = t) = some { B with segments := B.segments ++ ms } ∧
      (∀ sgm ∈ ms, A.segments.getLast?.map (·.color) = some sgm.color) ∧
      (∀ u ∈ us, u.segments.length ≤ u.capacity) := by
  obtain ⟨A', B', hA', hB', hcp'⟩ := executePour_success_inv tubes f t hs
  have hAeq : A' = A := by
    rw [hA] at hA'
    exact (Option.some.inj hA').symm
  have hBeq : B' = B := by
    rw [hB] at hB'
    exact (Option.some.inj hB').symm
  have hcp : (canPour A B).canPour = true := by
    rw [hAeq, hBeq] at hcp'
    exact hcp'
  have heq := executePour_success_eq tubes f t A B hA hB hcp
  have hAid : A.id = f := by have := List.find?_some hA; simpa using this
  have hBid : B.id = t := by have := List.find?_some hB; simpa using this
  obtain ⟨hAne, hBroom, hABid, -⟩ := (canPour_spec A B).mp hcp
  have hft : f ≠ t := fun h => hABid (by rw [hAid, hBid, h])
  have hrun := topRunOf_length_le A.segments
  refine ⟨_, _, by rw [heq], by rw [heq], ?_, ?_, ?_, ?_, ?_⟩
  · rw [List.length_take]
    exact Nat.min_comm _ _
  · -- the tube found under the source id is the shrunk source
    rw [find?_replaceFirst_other (fun u => u.id = t) (fun u => u.id = f)]
    · exact find?_replaceFirst_self _ _ A tubes (by simp [hAid]) hA
    · simp [hBid, Ne.symm hft]
    · intro z hz
      have : z.id = t := of_decide_eq_true hz
      simp [this, Ne.symm hft]
  · -- the tube found under the target id is the grown target
    refine find?_replaceFirst_self _ _ B _ (by simp [hBid]) ?_
    rw [find?_replaceFirst_other (fun u => u.id = f) (fun u => u.id = t)]
    · exact hB
    · simp [hAid, hft]
    · intro z hz
      have : z.id = f := of_decide_eq_true hz
      simp [this, hft]
  · -- every moved segment has the source's top color
    intro sgm hsgm
    have hmem : sgm ∈ topRunOf A.segments := List.mem_of_mem_take hsgm
    rcases hlast : A.segments.getLast? with _ | top
    · rw [List.getLast?_eq_none_iff] at hlast
      exact absurd hlast hAne
    · rw [topRunOf_color A.segments top hlast sgm hmem]
      rfl
  · -- capacities are respected in the result
    intro u hu
    rcases mem_replaceFirst _ _ _ _ hu with rfl | hu'
    · have hmove : ((topRunOf A.segments).take (B.capacity - B.segments.length)).length
          ≤ B.capacity - B.segments.length := by
        rw [List.length_take]; omega
      have := hcap B (List.mem_of_find?_eq_some hB)
      simp only [List.length_append]
      omega
    · rcases mem_replaceFirst _ _ _ _ hu' with rfl | hu''
      · have := hcap A (List.mem_of_find?_eq_some hA)
        simp only [List.length_take]
        omega
      · exact hcap u hu''

end PourSystem

namespace PourSystem

/-- C4 (witness): concrete pour `t1 → t2` on `smallBoard`. -/
theorem executePour_transfer_witness :
    (∀ u ∈ smallBoard, u.segments.length ≤ u.capacity) ∧
    (executePour smallBoard "t1" "t2").success = true ∧
    (∃ us ms,
      (executePour smallBoard "t1" "t2").updatedTubes = some us ∧
      (executePour smallBoard "t1" "t2").movedSegments = some ms ∧
      ms.length = min (topRunOf smallBoardT1.segments).length
        (smallBoardT2.capacity - smallBoardT2.segments.length) ∧
      us.find? (fun u => u.id = "t1")
        = some { smallBoardT1 with
            segments := smallBoardT1.segments.take (smallBoardT1.segments.length - ms.length) } ∧
      us.find? (fun u => u.id = "t2")
        = some { smallBoardT2 with segments := smallBoardT2.segments ++ ms } ∧
      (∀ sgm ∈ ms, smallBoardT1.segments.getLast?.map (·.color) = some sgm.color) ∧
      (∀ u ∈ us, u.segments.length ≤ u.capacity)) :=
  ⟨by decide, by decide,
    executePour_transfer smallBoard "t1" "t2" smallBoardT1 smallBoardT2
      (by decide) (by decide) (by decide) (by decide)⟩

/-- A pour whose source id is absent returns the invalid-ids result. -/
theorem executePour_noFrom_eq (tubes : List Tube) (f t : String)
    (hf : tubes.find? (fun u => u.id = f) = none) :
    executePour tubes f t = ⟨false, some "Invalid tube IDs", none, none⟩ := by
  unfold executePour
  rw [hf]

/-- A pour whose target id is absent returns the invalid-ids result. -/
theorem executePour_noTo_eq (tubes : List Tube) (f t : String) (A : Tube)
    (hf : tubes.find? (fun u => u.id = f) = some A)
    (ht : tubes.find? (fun u => u.id = t) = none) :
    executePour tubes f t = ⟨false, some "Invalid tube IDs", none, none⟩ := by
  unfold executePour
  rw [hf, ht]

/-- A pour that `canPour` declines returns the declined result carrying
`canPour`'s reason. -/
theorem executePour_declined_eq (tubes : List Tube) (f t : String) (A B : Tube)
    (hf : tubes.find? (fun u => u.id = f) = some A)
    (ht : tubes.find? (fun u => u.id = t) = some B)
    (hcp : (canPour A B).canPour = false) :
    executePour tubes f t = ⟨false, (canPour A B).reason, none, none⟩ := by
  unfold executePour
  rw [hf, ht]
  simp [hcp]

/-- C5: a pour request with an unknown source or target id, or one that
`canPour` rejects, yields `success := false` with a reason message, no
updated tube list and no moved segments — the input is untouched and no
exception paths exist (the embedding is a total function). -/
theorem executePour_rejects (tubes : List Tube) (f t : String)
    (h : tubes.find? (fun u => u.id = f) = none ∨
         tubes.find? (fun u => u.id = t) = none ∨
         ∃ A B, tubes.find? (fun u => u.id = f) = some A ∧
           tubes.find? (fun u => u.id = t) = some B ∧ (canPour A B).canPour = false) :
    (executePour tubes f t).success = false ∧
    (∃ m, (executePour tubes f t).message = some m) ∧
    (executePour tubes f t).updatedTubes = none ∧
    (executePour tubes f t).movedSegments = none := by
  rcases h with hf | ht | ⟨A, B, hA, hB, hcp⟩
  · rw [executePour_noFrom_eq tubes f t hf]
    exact ⟨rfl, ⟨_, rfl⟩, rfl, rfl⟩
  · rcases hf : tubes.find? (fun u => u.id = f) with _ | A
    · rw [executePour_noFrom_eq tubes f t hf]
      exact ⟨rfl, ⟨_, rfl⟩, rfl, rfl⟩
    · rw [executePour_noTo_eq tubes f t A hf ht]
      exact ⟨rfl, ⟨_, rfl⟩, rfl, rfl⟩
  · rw [executePour_declined_eq tubes f t A B hA hB hcp]
    refine ⟨rfl, ?_, rfl, rfl⟩
    exact canPour_false_reason _ _ hcp

/-- C5 (witness): a pour naming an id absent from `smallBoard` is
declined with a message. -/
theorem executePour_rejects_witness :
    (smallBoard.find? (fun u => u.id = "zz") = none ∨
     smallBoard.find? (fun u => u.id = "t2") = none ∨
     ∃ A B, smallBoard.find? (fun u => u.id = "zz") = some A ∧
       smallBoard.find? (fun u => u.id = "t2") = some B ∧ (canPour A B).canPour = false) ∧
    (executePour smallBoard "zz" "t2").success = false ∧
    (∃ m, (executePour smallBoard "zz" "t2").message = some m) ∧
    (executePour smallBoard "zz" "t2").updatedTubes = none ∧
    (executePour smallBoard "zz" "t2").movedSegments = none :=
  ⟨Or.inl (by decide), executePour_rejects smallBoard "zz" "t2" (Or.inl (by decide))⟩

/-- A tier scan over a star-descending list: any tier reached by the
stricter usage is matched or beaten by the laxer usage. -/
theorem find?_tier_ge (p q : Nat × StarThreshold → Bool) :
    ∀ l : List (Nat × StarThreshold),
      (∀ x ∈ l, p x = true → q x = true) →
      l.Pairwise (fun a b => b.1 ≤ a.1) →
      ∀ a, l.find? p = some a → ∃ b, l.find? q = some b ∧ a.1 ≤ b.1 := by
  intro l
  induction l with
  | nil => intro _ _ a ha; simp at ha
  | cons hd tl ih =>
    intro hpq hpw a ha
    by_cases hq : q hd
    · refine ⟨hd, by rw [List.find?_cons_of_pos _ hq], ?_⟩
      by_cases hp : p hd
      · rw [List.find?_cons_of_pos _ hp] at ha
        rw [← Option.some.inj ha]
      · rw [List.find?_cons_of_neg _ hp] at ha
        exact (List.pairwise_cons.mp hpw).1 a (List.mem_of_find?_eq_some ha)
    · have hp : p hd = false := by
        cases hph : p hd
        · rfl
        · exact absurd (hpq hd (List.mem_cons_self _ _) hph) (by simp [hq])
      rw [List.find?_cons_of_neg _ (by simp [hp])] at ha
      obtain ⟨b, hb, hab⟩ :=
        ih (fun x hx => hpq x (List.mem_cons_of_mem _ hx)) (List.pairwise_cons.mp hpw).2 a ha
      exact ⟨b, by rw [List.find?_cons_of_neg _ hq, hb], hab⟩

/-- C7: `calculateStars` is antitone in moves and time — for any fixed
threshold table, using fewer (non-negative) moves and less time never
yields fewer stars. -/
theorem calculateStars_monotone (movesA timeA movesB timeB : Int) (st : StarThresholds)
    (h0m : 0 ≤ movesA) (h0t : 0 ≤ timeA) (hm : movesA ≤ movesB) (ht : timeA ≤ timeB) :
    calculateStars movesB timeB st ≤ calculateStars movesA timeA st := by
  simp only [calculateStars]
  have himp : ∀ x ∈ [(5, st.five), (4, st.four), (3, st.three), (2, st.two), (1, st.one)],
      (fun p : Nat × StarThreshold =>
        decide (max 0 movesB ≤ p.2.moves) && decide (max 0 timeB ≤ p.2.timeSeconds)) x = true →
      (fun p : Nat × StarThreshold =>
        decide (max 0 movesA ≤ p.2.moves) && decide (max 0 timeA ≤ p.2.timeSeconds)) x = true := by
    intro x _ hx
    simp only [Bool.and_eq_true, decide_eq_true_eq] at hx ⊢
    omega
  have hpw : ([(5, st.five), (4, st.four), (3, st.three), (2, st.two), (1, st.one)] :
      List (Nat × StarThreshold)).Pairwise (fun a b => b.1 ≤ a.1) := by
    simp [List.pairwise_cons]
  rcases hfind : ([(5, st.five), (4, st.four), (3, st.three), (2, st.two), (1, st.one)] :
      List (Nat × StarThreshold)).find?
      (fun p => decide (max 0 movesB ≤ p.2.moves) && decide (max 0 timeB ≤ p.2.timeSeconds))
    with _ | a
  · rw [hfind]
    exact Nat.zero_le _
  · obtain ⟨b, hb, hab⟩ := find?_tier_ge _ _ _ himp hpw a hfind
    rw [hfind, hb]
    exact hab

/-- C7 (witness): with `sampleThresholds`, one move in one second earns
at least as many stars as five moves in five seconds. -/
theorem calculateStars_monotone_witness :
    (0 : Int) ≤ 1 ∧ (0 : Int) ≤ 1 ∧ (1 : Int) ≤ 5 ∧ (1 : Int) ≤ 5 ∧
    calculateStars 5 5 sampleThresholds ≤ calculateStars 1 1 sampleThresholds :=
  ⟨by decide, by decide, by decide, by decide,
    calculateStars_monotone 1 1 5 5 sampleThresholds (by decide) (by decide) (by decide) (by decide)⟩

end PourSystem

/-! ## Session-controller lemmas -/

namespace GameContext

/-- C6: from any session with undo history, undo immediately followed by
redo restores the pre-undo container contents, move count, star value
and completion/failure flags exactly. -/
theorem undo_redo_roundtrip (s : Session) (h : s.moveHistory ≠ []) :
    (redoMove (undoMove s)).gameState.tubes = s.gameState.tubes ∧
    (redoMove (undoMove s)).gameState.moves = s.gameState.moves ∧
    (redoMove (undoMove s)).gameState.stars = s.gameState.stars ∧
    (redoMove (undoMove s)).gameState.isComplete = s.gameState.isComplete ∧
    (redoMove (undoMove s)).gameState.isFailed = s.gameState.isFailed := by
  rcases hlast : s.moveHistory.getLast? with _ | prev
  · rw [List.getLast?_eq_none_iff] at hlast
    exact absurd hlast h
  · unfold undoMove
    rw [hlast]
    unfold redoMove
    simp only [List.getLast?_append, List.getLast?_cons, List.getLast?_nil]
    simp [createSnapshot, Solver.cloneTubes_eq]

/-- C6 (witness): the round trip on a concrete one-snapshot session. -/
theorem undo_redo_roundtrip_witness :
    undoableSession.moveHistory ≠ [] ∧
    ((redoMove (undoMove undoableSession)).gameState.tubes = undoableSession.gameState.tubes ∧
     (redoMove (undoMove undoableSession)).gameState.moves = undoableSession.gameState.moves ∧
     (redoMove (undoMove undoableSession)).gameState.stars = undoableSession.gameState.stars ∧
     (redoMove (undoMove undoableSession)).gameState.isComplete
        = undoableSession.gameState.isComplete ∧
     (redoMove (undoMove undoableSession)).gameState.isFailed
        = undoableSession.gameState.isFailed) :=
  ⟨by decide, undo_redo_roundtrip undoableSession (by decide)⟩

/-- C10: `undoMove` and `redoMove` never change the coin balance, the
progress map, the hint counter or the current level — completing a level
and undoing the final move does not revoke coins or recorded stars. -/
theorem undo_redo_frame (s : Session) :
    (undoMove s).gameState.coinBalance = s.gameState.coinBalance ∧
    (undoMove s).gameState.userProgress = s.gameState.userProgress ∧
    (undoMove s).gameState.hintsUsed = s.gameState.hintsUsed ∧
    (undoMove s).gameState.currentLevel = s.gameState.currentLevel ∧
    (redoMove s).gameState.coinBalance = s.gameState.coinBalance ∧
    (redoMove s).gameState.userProgress = s.gameState.userProgress ∧
    (redoMove s).gameState.hintsUsed = s.gameState.hintsUsed ∧
    (redoMove s).gameState.currentLevel = s.gameState.currentLevel := by
  unfold undoMove redoMove
  rcases s.moveHistory.getLast? with _ | prev <;>
    rcases s.redoHistory.getLast? with _ | nxt <;> simp

end GameContext

namespace GameContext

/-- C9: `requestHint` yields no hint move and leaves the coin balance
and hint counter unchanged whenever the session is complete or failed,
three hints were already used, or fewer than 5 coins are held; whenever
it does yield a hint move it deducts exactly 5 coins and increments the
hint counter by exactly one, so at most three hints are obtainable per
level attempt. -/
theorem requestHint_spec (s : Session) :
    ((s.gameState.isComplete = true ∨ s.gameState.isFailed = true ∨
        3 ≤ s.gameState.hintsUsed ∨ s.gameState.coinBalance < 5) →
      (requestHint s).1.move = none ∧
      (requestHint s).2.gameState.coinBalance = s.gameState.coinBalance ∧
      (requestHint s).2.gameState.hintsUsed = s.gameState.hintsUsed) ∧
    (∀ mv, (requestHint s).1.move = some mv →
      (requestHint s).2.gameState.coinBalance = s.gameState.coinBalance - 5 ∧
      (requestHint s).2.gameState.hintsUsed = s.gameState.hintsUsed + 1 ∧
      s.gameState.hintsUsed + 1 ≤ 3) := by
  by_cases h1 : (s.gameState.isComplete || s.gameState.isFailed) = true
  · have hreq : requestHint s = (⟨none, none⟩, s) := by
      simp only [requestHint, h1, if_true]
    rw [hreq]
    exact ⟨fun _ => ⟨rfl, rfl, rfl⟩, fun mv hmv => by cases hmv⟩
  · by_cases h2 : 3 ≤ s.gameState.hintsUsed
    · have hreq : requestHint s
          = (⟨none, some "You have depleted hints in this level."⟩, s) := by
        simp only [requestHint, h1, h2, if_true, if_false, Bool.false_eq_true]
      rw [hreq]
      exact ⟨fun _ => ⟨rfl, rfl, rfl⟩, fun mv hmv => by cases hmv⟩
    · by_cases h3 : s.gameState.coinBalance < 5
      · have hreq : requestHint s
            = (⟨none, some "Not enough diamonds for a hint."⟩, s) := by
          simp only [requestHint, h1, h2, h3, if_true, if_false, Bool.false_eq_true]
        rw [hreq]
        exact ⟨fun _ => ⟨rfl, rfl, rfl⟩, fun mv hmv => by cases hmv⟩
      · have hflags : s.gameState.isComplete ≠ true ∧ s.gameState.isFailed ≠ true := by
          constructor <;> intro hx <;> apply h1 <;> simp [hx]
        have habs : ¬(s.gameState.isComplete = true ∨ s.gameState.isFailed = true ∨
            3 ≤ s.gameState.hintsUsed ∨ s.gameState.coinBalance < 5) := by
          rintro (hx | hx | hx | hx)
          · exact hflags.1 hx
          · exact hflags.2 hx
          · exact h2 hx
          · exact h3 hx
        by_cases h4 : ((Solver.findOptimalSolution (Solver.cloneTubes s.gameState.tubes)
            350000).solved &&
            decide (0 < (Solver.findOptimalSolution (Solver.cloneTubes s.gameState.tubes)
              350000).moves.length)) = true
        · rcases hhead : (Solver.findOptimalSolution (Solver.cloneTubes s.gameState.tubes)
              350000).moves.head? with _ | mv
          · have hreq : requestHint s
                = (⟨none, some "No hint available right now. Try a different pour!"⟩, s) := by
              simp only [requestHint, h1, h2, h3, h4, hhead, if_true, if_false,
                Bool.false_eq_true]
            rw [hreq]
            exact ⟨fun hx => absurd hx habs, fun mv hmv => by cases hmv⟩
          · have hguard : (decide (s.gameState.coinBalance < 5) ||
                decide (3 ≤ s.gameState.hintsUsed)) = false := by
              simp [h2, h3]
            have hreq : requestHint s = (⟨some mv, none⟩,
                { s with gameState := { s.gameState with
                    hintMove := some mv
                    coinBalance := max 0 (s.gameState.coinBalance - 5)
                    hintsUsed := s.gameState.hintsUsed + 1
                    optimalMoveCount :=
                      if s.gameState.optimalMoveCount = none ∧
                          (Solver.findOptimalSolution (Solver.cloneTubes s.gameState.tubes)
                            350000).solved = true then
                        some (Solver.findOptimalSolution (Solver.cloneTubes s.gameState.tubes)
                          350000).moves.length
                      else s.gameState.optimalMoveCount } }) := by
              simp only [requestHint, h1, h2, h3, h4, hhead, hguard, if_true, if_false,
                Bool.false_eq_true, decide_False, Bool.or_self]
            rw [hreq]
            refine ⟨fun hx => absurd hx habs, fun mv' hmv' => ⟨?_, rfl, ?_⟩⟩
            · simp only
              omega
            · omega
        · by_cases h5 : s.gameState.hintMove = none
          · have hreq : requestHint s
                = (⟨none, some "No hint available right now. Try a different pour!"⟩, s) := by
              simp only [requestHint, h1, h2, h3, h4, h5, if_true, if_false,
                Bool.false_eq_true]
            rw [hreq]
            exact ⟨fun _ => ⟨rfl, rfl, rfl⟩, fun mv hmv => by cases hmv⟩
          · have hreq : requestHint s
                = (⟨none, some "No hint available right now. Try a different pour!"⟩,
                   { s with gameState := { s.gameState with hintMove := none } }) := by
              simp only [requestHint, h1, h2, h3, h4, h5, if_true, if_false,
                Bool.false_eq_true]
            rw [hreq]
            exact ⟨fun _ => ⟨rfl, rfl, rfl⟩, fun mv hmv => by cases hmv⟩

end GameContext

namespace GameContext

/-- C9 (witness): with three hints already used, `requestHint` declines
and changes neither coins nor the hint counter. -/
theorem requestHint_spec_witness :
    (exhaustedHintsSession.gameState.isComplete = true ∨
     exhaustedHintsSession.gameState.isFailed = true ∨
     3 ≤ exhaustedHintsSession.gameState.hintsUsed ∨
     exhaustedHintsSession.gameState.coinBalance < 5) ∧
    ((requestHint exhaustedHintsSession).1.move = none ∧
     (requestHint exhaustedHintsSession).2.gameState.coinBalance
        = exhaustedHintsSession.gameState.coinBalance ∧
     (requestHint exhaustedHintsSession).2.gameState.hintsUsed
        = exhaustedHintsSession.gameState.hintsUsed) :=
  ⟨Or.inr (Or.inr (Or.inl (by decide))),
    (requestHint_spec exhaustedHintsSession).1 (Or.inr (Or.inr (Or.inl (by decide))))⟩

end GameContext

/-! ## Solver replay lemmas -/

namespace Solver

open PourSystem

/-- Replaying a successful pour is the pour followed by unlock
propagation. -/
theorem applyMove_eq_of_success (tubes : List Tube) (mv : TubeMove) (us : List Tube)
    (hs : (executePour tubes mv.fromTubeId mv.toTubeId).success = true)
    (hus : (executePour tubes mv.fromTubeId mv.toTubeId).updatedTubes = some us) :
    applyMove tubes mv = applyUnlocks us := by
  unfold applyMove
  simp [hus, hs]

/-- Appending one move to a replay applies it last. -/
theorem replayMoves_append_one (tubes : List Tube) (moves : List TubeMove) (mv : TubeMove) :
    replayMoves tubes (moves ++ [mv]) = applyMove (replayMoves tubes moves) mv := by
  unfold replayMoves
  rw [List.foldl_append]
  rfl

/-- `expandOne` only adds nodes whose stored configuration is the replay
of their stored move path. -/
theorem expandOne_inv (initial allTubes : List Tube) (moves : List TubeMove)
    (hrep : replayMoves initial moves = allTubes)
    (fi ti iterations : Nat) (visited : List String) (acc : List SearchNode)
    (hacc : ∀ nd ∈ acc, replayMoves initial nd.moves = nd.tubes) :
    ∀ nd ∈ (expandOne allTubes moves fi ti iterations visited acc).2.2,
      replayMoves initial nd.moves = nd.tubes := by
  intro nd hnd
  unfold expandOne at hnd
  by_cases hfi : fi = ti
  · rw [if_pos hfi] at hnd
    exact hacc nd hnd
  · rw [if_neg hfi] at hnd
    rcases hgf : allTubes.get? fi with _ | fromTube <;> rw [hgf] at hnd
    · exact hacc nd hnd
    · rcases hgt : allTubes.get? ti with _ | toTube <;> rw [hgt] at hnd
      · exact hacc nd hnd
      · dsimp only at hnd
        by_cases hskip : shouldSkipMove fromTube toTube = true
        · rw [if_pos hskip] at hnd
          exact hacc nd hnd
        · rw [if_neg hskip] at hnd
          by_cases hsucc : (executePour allTubes fromTube.id toTube.id).success = true
          · rw [if_pos hsucc] at hnd
            rcases hus : (executePour allTubes fromTube.id toTube.id).updatedTubes
              with _ | us <;> rw [hus] at hnd
            · exact hacc nd hnd
            · rcases hms : (executePour allTubes fromTube.id toTube.id).movedSegments
                with _ | ms <;> rw [hms] at hnd
              · exact hacc nd hnd
              · dsimp only at hnd
                by_cases hemp : ms.isEmpty = true
                · rw [if_pos hemp] at hnd
                  exact hacc nd hnd
                · rw [if_neg hemp] at hnd
                  by_cases hvis : visited.contains
                      (serializeTubes (applyUnlocks (cloneTubes us))) = true
                  · rw [if_pos hvis] at hnd
                    exact hacc nd hnd
                  · rw [if_neg hvis] at hnd
                    rcases List.mem_append.mp hnd with h | h
                    · exact hacc nd h
                    · have hnd' : nd = ⟨applyUnlocks (cloneTubes us),
                          moves ++ [⟨fromTube.id, toTube.id⟩]⟩ := by
                        simpa using h
                      subst hnd'
                      show replayMoves initial (moves ++ [⟨fromTube.id, toTube.id⟩])
                        = applyUnlocks (cloneTubes us)
                      rw [cloneTubes_eq, replayMoves_append_one, hrep]
                      exact applyMove_eq_of_success allTubes ⟨fromTube.id, toTube.id⟩ us
                        hsucc hus
          · rw [if_neg hsucc] at hnd
            exact hacc nd hnd

/-- `expandPairs` preserves the replay invariant of its accumulator. -/
theorem expandPairs_inv (initial allTubes : List Tube) (moves : List TubeMove)
    (hrep : replayMoves initial moves = allTubes) :
    ∀ (pairs : List (Nat × Nat)) (iterations : Nat) (visited : List String)
      (acc : List SearchNode),
      (∀ nd ∈ acc, replayMoves initial nd.moves = nd.tubes) →
      ∀ nd ∈ (expandPairs allTubes moves pairs iterations visited acc).2.2,
        replayMoves initial nd.moves = nd.tubes := by
  intro pairs
  induction pairs with
  | nil =>
    intro iterations visited acc hacc nd hnd
    exact hacc nd hnd
  | cons pr rest ih =>
    obtain ⟨fi, ti⟩ := pr
    intro iterations visited acc hacc nd hnd
    unfold expandPairs at hnd
    exact ih _ _ _
      (expandOne_inv initial allTubes moves hrep fi ti iterations visited acc hacc) nd hnd

/-- Any solved result of the BFS loop replays to a complete
configuration, provided every queued node satisfies the replay
invariant. -/
theorem bfsLoop_replay (initial : List Tube) (maxIterations : Nat) :
    ∀ (fuel : Nat) (queue : List SearchNode) (index : Nat) (visited : List String)
      (iterations : Nat),
      (∀ nd ∈ queue, replayMoves initial nd.moves = nd.tubes) →
      (bfsLoop maxIterations fuel queue index visited iterations).solved = true →
      isLevelComplete
        (replayMoves initial
          (bfsLoop maxIterations fuel queue index visited iterations).moves) = true := by
  intro fuel
  induction fuel with
  | zero =>
    intro queue index visited iterations hinv hsolved
    simp [bfsLoop] at hsolved
  | succ fuel ih =>
    intro queue index visited iterations hinv hsolved
    by_cases hlt : iterations < maxIterations
    · rcases hq : queue.get? index with _ | node
      · rw [bfsLoop, if_pos hlt, hq] at hsolved
        simp at hsolved
      · by_cases hcomp : isLevelComplete node.tubes = true
        · rw [bfsLoop, if_pos hlt, hq] at hsolved ⊢
          dsimp only at hsolved ⊢
          rw [if_pos hcomp] at hsolved ⊢
          dsimp only
          rw [hinv node (List.get?_mem hq)]
          exact hcomp
        · rw [bfsLoop, if_pos hlt, hq] at hsolved ⊢
          dsimp only at hsolved ⊢
          rw [if_neg hcomp] at hsolved ⊢
          refine ih _ _ _ _ ?_ hsolved
          intro nd hnd
          rcases List.mem_append.mp hnd with h | h
          · exact hinv nd h
          · exact expandPairs_inv initial node.tubes node.moves
              (hinv node (List.get?_mem hq)) _ _ _ []
              (by intro x hx; cases hx) nd h
    · rw [bfsLoop, if_neg hlt] at hsolved
      simp at hsolved

end Solver

namespace Solver

open PourSystem

/-- C1 (counterexample): on `lockedBoard` the solver reports an optimal
solution of 3 moves, yet the 2-move sequence `L → X`, `L → Y` — legal
under `executePour`, which never checks locks — already reaches a
complete configuration.  The minimality conjunct of the claim fails. -/
theorem findOptimalSolution_not_minimal_counterexample :
    (findOptimalSolution lockedBoard).solved = true ∧
    (findOptimalSolution lockedBoard).moves.length = 3 ∧
    isLevelComplete (replayMoves lockedBoard lockedBoardShortSolution) = true ∧
    lockedBoardShortSolution.length = 2 := by
  refine ⟨?_, ?_, ?_, ?_⟩ <;> decide

/-- C1 (amended): whenever `findOptimalSolution` reports `solved`,
replaying its returned move sequence in order via `executePour`, with
unlock propagation applied after each move, reaches a configuration
satisfying `isLevelComplete`. -/
theorem findOptimalSolution_replay (initialTubes : List Tube) (maxIterations : Nat)
    (hs : (findOptimalSolution initialTubes maxIterations).solved = true) :
    isLevelComplete
      (replayMoves initialTubes
        (findOptimalSolution initialTubes maxIterations).moves) = true := by
  unfold findOptimalSolution at hs ⊢
  rw [cloneTubes_eq] at hs ⊢
  by_cases hcomp : isLevelComplete initialTubes = true
  · rw [if_pos hcomp] at hs ⊢
    simpa [replayMoves] using hcomp
  · rw [if_neg hcomp] at hs ⊢
    refine bfsLoop_replay initialTubes maxIterations _ _ _ _ _ ?_ hs
    intro nd hnd
    have : nd = ⟨initialTubes, []⟩ := by simpa using hnd
    subst this
    rfl

/-- C1 (witness): the solver solves `smallBoard` and its returned
sequence replays to a complete configuration. -/
theorem findOptimalSolution_replay_witness :
    (findOptimalSolution smallBoard 250000).solved = true ∧
    isLevelComplete
      (replayMoves smallBoard (findOptimalSolution smallBoard 250000).moves) = true :=
  ⟨by decide, findOptimalSolution_replay smallBoard 250000 (by decide)⟩

end Solver

/-! ## Level-generator lemmas -/

namespace LevelData

/-- The selected color list always has `requiredColors.toNat` entries. -/
theorem length_getGenerationColors (levelId requiredColors : Int) :
    (getGenerationColors levelId requiredColors).length = requiredColors.toNat := by
  unfold getGenerationColors
  by_cases h : ((getAccessibleColors levelId requiredColors).length : Int) = requiredColors
  · rw [if_pos h]
    omega
  · rw [if_neg h]
    simp

/-- Segment pools built over `enumFrom` have `cap` segments per color. -/
theorem length_allSegmentsFor_aux (id : Int) (cap : Nat) :
    ∀ (k : Nat) (cs : List String),
      ((List.enumFrom k cs).flatMap fun ci =>
        (List.range cap).map fun i =>
          (⟨ci.2, "seg-" ++ toString id ++ "-" ++ toString ci.1 ++ "-" ++ toString i⟩ :
            ColorSegment)).length = cs.length * cap := by
  intro k cs
  induction cs generalizing k with
  | nil => simp
  | cons c cs ih =>
    simp only [List.enumFrom, List.flatMap_cons, List.length_append, List.length_map,
      List.length_range, ih (k + 1), List.length_cons]
    ring

/-- The pool holds `cap` segments per selected color. -/
theorem length_allSegmentsFor (id : Int) (cs : List String) (cap : Nat) :
    (allSegmentsFor id cs cap).length = cs.length * cap :=
  length_allSegmentsFor_aux id cap 0 cs

/-- The pool's colors are each selected color repeated `cap` times. -/
theorem map_color_allSegmentsFor_aux (id : Int) (cap : Nat) :
    ∀ (k : Nat) (cs : List String),
      (((List.enumFrom k cs).flatMap fun ci =>
        (List.range cap).map fun i =>
          (⟨ci.2, "seg-" ++ toString id ++ "-" ++ toString ci.1 ++ "-" ++ toString i⟩ :
            ColorSegment)).map (·.color)) = cs.flatMap fun c => List.replicate cap c := by
  intro k cs
  induction cs generalizing k with
  | nil => simp
  | cons c cs ih =>
    simp only [List.enumFrom, List.flatMap_cons, List.map_append, List.map_map, ih (k + 1)]
    congr 1
    show (List.range cap).map (fun _ => c) = List.replicate cap c
    simp

/-- The pool's colors are each selected color repeated `cap` times. -/
theorem map_color_allSegmentsFor (id : Int) (cs : List String) (cap : Nat) :
    ((allSegmentsFor id cs cap).map (·.color)) = cs.flatMap fun c => List.replicate cap c :=
  map_color_allSegmentsFor_aux id cap 0 cs

/-- Dealing a list of length `n * 4` back out four at a time restores
the list. -/
theorem range_slices_concat :
    ∀ (n : Nat) (l : List ColorSegment), l.length = n * 4 →
      (List.range n).flatMap (fun i => (l.drop (i * 4)).take 4) = l := by
  intro n
  induction n with
  | zero =>
    intro l hl
    simp at hl
    simp [hl]
  | succ n ih =>
    intro l hl
    rw [List.range_succ_eq_map]
    simp only [List.flatMap_cons, Nat.zero_mul, List.drop_zero]
    have hmap : ((List.range n).map Nat.succ).flatMap (fun i => (l.drop (i * 4)).take 4)
        = (List.range n).flatMap (fun i => ((l.drop 4).drop (i * 4)).take 4) := by
      rw [List.flatMap_def, List.map_map, List.flatMap_def]
      congr 1
      apply List.map_congr_left
      intro i _
      simp only [Function.comp]
      rw [List.drop_drop]
      have h4 : 4 + i * 4 = Nat.succ i * 4 := by omega
      rw [h4]
    rw [hmap, ih (l.drop 4) (by rw [List.length_drop, hl]; omega)]
    exact List.take_append_drop 4 l

/-- `modifyFirst` preserves list length. -/
theorem length_modifyFirst (p : Tube → Bool) (f : Tube → Tube) :
    ∀ l : List Tube, (modifyFirst p f l).length = l.length := by
  intro l
  induction l with
  | nil => rfl
  | cons a l ih =>
    by_cases h : p a
    · simp [modifyFirst, h]
    · simp [modifyFirst, h, ih]

/-- Members of `modifyFirst p f l` are members of `l`, possibly with `f`
applied. -/
theorem mem_modifyFirst (p : Tube → Bool) (f : Tube → Tube) :
    ∀ (l : List Tube) (tb : Tube), tb ∈ modifyFirst p f l →
      ∃ x ∈ l, tb = x ∨ tb = f x := by
  intro l
  induction l with
  | nil => intro tb h; simp [modifyFirst] at h
  | cons a l ih =>
    intro tb h
    by_cases hp : p a
    · simp only [modifyFirst, hp, if_pos, List.mem_cons] at h
      rcases h with h | h
      · exact ⟨a, List.mem_cons_self a l, Or.inr h⟩
      · exact ⟨tb, List.mem_cons_of_mem _ h, Or.inl rfl⟩
    · simp only [modifyFirst, hp, if_neg, Bool.false_eq_true, not_false_eq_true,
        List.mem_cons] at h
      rcases h with h | h
      · exact ⟨a, List.mem_cons_self a l, Or.inl h⟩
      · obtain ⟨x, hx, hor⟩ := ih tb h
        exact ⟨x, List.mem_cons_of_mem _ hx, hor⟩

/-- `applySpecialContainers` preserves list length. -/
theorem length_applySpecialContainers (levelId : Int) (l : List Tube) :
    (applySpecialContainers levelId l).length = l.length := by
  unfold applySpecialContainers
  by_cases h0 : l.length = 0
  · rw [if_pos h0]
  · rw [if_neg h0]
    by_cases hb : 151 ≤ levelId ∧ levelId ≤ 300
    · rw [if_pos hb, length_modifyFirst]
    · rw [if_neg hb]

/-- Members of `applySpecialContainers` keep their segments and
capacity. -/
theorem mem_applySpecialContainers (levelId : Int) (l : List Tube) (tb : Tube)
    (h : tb ∈ applySpecialContainers levelId l) :
    ∃ x ∈ l, tb.segments = x.segments ∧ tb.capacity = x.capacity := by
  unfold applySpecialContainers at h
  by_cases h0 : l.length = 0
  · rw [if_pos h0] at h
    exact ⟨tb, h, rfl, rfl⟩
  · rw [if_neg h0] at h
    by_cases hb : 151 ≤ levelId ∧ levelId ≤ 300
    · rw [if_pos hb] at h
      obtain ⟨x, hx, hor⟩ := mem_modifyFirst _ _ l tb h
      rcases hor with h1 | h1
      · exact ⟨x, hx, by rw [h1], by rw [h1]⟩
      · exact ⟨x, hx, by rw [h1], by rw [h1]⟩
    · rw [if_neg hb] at h
      exact ⟨tb, h, rfl, rfl⟩

end LevelData

namespace LevelData

/-- `generateLevel`'s container list in closed form: the filled tubes
dealt from the shuffled pool, then the starter-marked empty padding. -/
theorem generateLevel_tubes_eq (id : Int) (σ : List ColorSegment → List ColorSegment) :
    (generateLevel id σ).tubes =
      ((List.range (getColorCountForLevel id).toNat).map fun i =>
        ({ id := "tube-" ++ toString id ++ "-" ++ toString (i + 1)
           capacity := 4
           segments := ((σ (allSegmentsFor id
             (getGenerationColors id (getColorCountForLevel id)) 4)).drop (i * 4)).take 4 } :
          Tube))
      ++ applySpecialContainers id
          ((List.range (max 1 (getContainerCountForLevel id (getColorCountForLevel id)
              - getColorCountForLevel id)).toNat).map fun i =>
            ({ id := "tube-" ++ toString id ++ "-"
                 ++ toString ((getColorCountForLevel id).toNat + i + 1)
               capacity := 4
               segments := [] } : Tube)) := rfl

/-- C8: for every level index in 1..500 and every permutation outcome of
the generation shuffle, the generated level has capacity-4 containers
throughout, exactly `numColors` filled containers each holding exactly 4
segments whose pooled colors are 4 of each selected color, at least one
empty container, and at least `numColors + 1` containers in total. -/
theorem generateLevel_spec (id : Int) (σ : List ColorSegment → List ColorSegment)
    (h1 : 1 ≤ id) (h2 : id ≤ 500)
    (hperm : (σ (allSegmentsFor id (getGenerationColors id (getColorCountForLevel id)) 4)).Perm
        (allSegmentsFor id (getGenerationColors id (getColorCountForLevel id)) 4)) :
    (∀ tb ∈ (generateLevel id σ).tubes, tb.capacity = 4) ∧
    ((generateLevel id σ).tubes.filter fun tb => !tb.segments.isEmpty).length
        = (getColorCountForLevel id).toNat ∧
    (∀ tb ∈ (generateLevel id σ).tubes, tb.segments.length = 4 ∨ tb.segments.length = 0) ∧
    (∃ tb ∈ (generateLevel id σ).tubes, tb.segments = []) ∧
    (getColorCountForLevel id).toNat + 1 ≤ (generateLevel id σ).tubes.length ∧
    (((generateLevel id σ).tubes.flatMap fun tb => tb.segments).map fun sg => sg.color).Perm
        ((getGenerationColors id (getColorCountForLevel id)).flatMap fun c =>
          List.replicate 4 c) := by
  rw [generateLevel_tubes_eq]
  have hcslen : (getGenerationColors id (getColorCountForLevel id)).length
      = (getColorCountForLevel id).toNat := length_getGenerationColors id _
  have hpoollen : (allSegmentsFor id (getGenerationColors id (getColorCountForLevel id)) 4).length
      = (getColorCountForLevel id).toNat * 4 := by
    rw [length_allSegmentsFor, hcslen]
  have hllen : (σ (allSegmentsFor id (getGenerationColors id (getColorCountForLevel id)) 4)).length
      = (getColorCountForLevel id).toNat * 4 := hperm.length_eq.trans hpoollen
  have hfill : ∀ tb ∈ (List.range (getColorCountForLevel id).toNat).map fun i =>
      ({ id := "tube-" ++ toString id ++ "-" ++ toString (i + 1)
         capacity := 4
         segments := ((σ (allSegmentsFor id
           (getGenerationColors id (getColorCountForLevel id)) 4)).drop (i * 4)).take 4 } :
        Tube), tb.segments.length = 4 ∧ tb.capacity = 4 := by
    intro tb htb
    obtain ⟨i, hi, heq⟩ := List.mem_map.mp htb
    have hi' : i < (getColorCountForLevel id).toNat := List.mem_range.mp hi
    constructor
    · rw [← heq]
      simp only [List.length_take, List.length_drop, hllen]
      omega
    · rw [← heq]
  have hempty : ∀ tb ∈ applySpecialContainers id
      ((List.range (max 1 (getContainerCountForLevel id (getColorCountForLevel id)
          - getColorCountForLevel id)).toNat).map fun i =>
        ({ id := "tube-" ++ toString id ++ "-"
             ++ toString ((getColorCountForLevel id).toNat + i + 1)
           capacity := 4
           segments := [] } : Tube)), tb.segments = [] ∧ tb.capacity = 4 := by
    intro tb htb
    obtain ⟨x, hx, hseg, hcap⟩ := mem_applySpecialContainers id _ tb htb
    obtain ⟨i, hi, heq⟩ := List.mem_map.mp hx
    constructor
    · rw [hseg, ← heq]
    · rw [hcap, ← heq]
  have hemplen : (applySpecialContainers id
      ((List.range (max 1 (getContainerCountForLevel id (getColorCountForLevel id)
          - getColorCountForLevel id)).toNat).map fun i =>
        ({ id := "tube-" ++ toString id ++ "-"
             ++ toString ((getColorCountForLevel id).toNat + i + 1)
           capacity := 4
           segments := [] } : Tube))).length
      = (max 1 (getContainerCountForLevel id (getColorCountForLevel id)
          - getColorCountForLevel id)).toNat := by
    rw [length_applySpecialContainers]
    simp
  have hemppos : 1 ≤ (max 1 (getContainerCountForLevel id (getColorCountForLevel id)
      - getColorCountForLevel id)).toNat := by
    have hle : (1 : Int) ≤ max 1 (getContainerCountForLevel id (getColorCountForLevel id)
        - getColorCountForLevel id) := le_max_left _ _
    omega
  refine ⟨?_, ?_, ?_, ?_, ?_, ?_⟩
  · -- all capacities are 4
    intro tb htb
    rcases List.mem_append.mp htb with h | h
    · exact (hfill tb h).2
    · exact (hempty tb h).2
  · -- exactly numColors filled containers
    rw [List.filter_append]
    rw [List.filter_eq_self.mpr (fun tb htb => by
      have hlen4 := (hfill tb htb).1
      simp only [Bool.not_eq_true']
      cases hseg : tb.segments with
      | nil => rw [hseg] at hlen4; simp at hlen4
      | cons a l => rfl)]
    rw [List.filter_eq_nil_iff.mpr (fun tb htb => by
      have := (hempty tb htb).1
      simp [this])]
    simp
  · -- every container holds 4 or 0 segments
    intro tb htb
    rcases List.mem_append.mp htb with h | h
    · exact Or.inl (hfill tb h).1
    · refine Or.inr ?_
      rw [(hempty tb h).1]
      rfl
  · -- at least one empty container
    have : 0 < (applySpecialContainers id
        ((List.range (max 1 (getContainerCountForLevel id (getColorCountForLevel id)
            - getColorCountForLevel id)).toNat).map fun i =>
          ({ id := "tube-" ++ toString id ++ "-"
               ++ toString ((getColorCountForLevel id).toNat + i + 1)
             capacity := 4
             segments := [] } : Tube))).length := by
      rw [hemplen]
      omega
    obtain ⟨tb, htb⟩ := List.exists_mem_of_length_pos this
    exact ⟨tb, List.mem_append_right _ htb, (hempty tb htb).1⟩
  · -- total container count is at least numColors + 1
    rw [List.length_append, List.length_map, List.length_range, hemplen]
    omega
  · -- the pooled colors are 4 of each selected color
    rw [List.flatMap_append]
    have hemptyflat : (applySpecialContainers id
        ((List.range (max 1 (getContainerCountForLevel id (getColorCountForLevel id)
            - getColorCountForLevel id)).toNat).map fun i =>
          ({ id := "tube-" ++ toString id ++ "-"
               ++ toString ((getColorCountForLevel id).toNat + i + 1)
             capacity := 4
             segments := [] } : Tube))).flatMap (fun tb => tb.segments) = [] := by
      rw [List.flatMap_eq_nil_iff]
      intro tb htb
      exact (hempty tb htb).1
    rw [hemptyflat, List.append_nil]
    have hfilledflat : ((List.range (getColorCountForLevel id).toNat).map fun i =>
        ({ id := "tube-" ++ toString id ++ "-" ++ toString (i + 1)
           capacity := 4
           segments := ((σ (allSegmentsFor id
             (getGenerationColors id (getColorCountForLevel id)) 4)).drop (i * 4)).take 4 } :
          Tube)).flatMap (fun tb => tb.segments)
        = σ (allSegmentsFor id (getGenerationColors id (getColorCountForLevel id)) 4) := by
      rw [List.flatMap_def, List.map_map]
      rw [← List.flatMap_def]
      exact range_slices_concat _ _ hllen
    rw [hfilledflat]
    rw [← map_color_allSegmentsFor id (getGenerationColors id (getColorCountForLevel id)) 4]
    exact hperm.map _

end LevelData

namespace LevelData

/-- C8 (witness): level 1 with the identity shuffle outcome. -/
theorem generateLevel_spec_witness :
    (1 : Int) ≤ 1 ∧ (1 : Int) ≤ 500 ∧
    ((fun l : List ColorSegment => l)
        (allSegmentsFor 1 (getGenerationColors 1 (getColorCountForLevel 1)) 4)).Perm
      (allSegmentsFor 1 (getGenerationColors 1 (getColorCountForLevel 1)) 4) ∧
    ((∀ tb ∈ (generateLevel 1 (fun l => l)).tubes, tb.capacity = 4) ∧
     ((generateLevel 1 (fun l => l)).tubes.filter fun tb => !tb.segments.isEmpty).length
        = (getColorCountForLevel 1).toNat ∧
     (∀ tb ∈ (generateLevel 1 (fun l => l)).tubes,
        tb.segments.length = 4 ∨ tb.segments.length = 0) ∧
     (∃ tb ∈ (generateLevel 1 (fun l => l)).tubes, tb.segments = []) ∧
     (getColorCountForLevel 1).toNat + 1 ≤ (generateLevel 1 (fun l => l)).tubes.length ∧
     (((generateLevel 1 (fun l => l)).tubes.flatMap fun tb => tb.segments).map
        fun sg => sg.color).Perm
          ((getGenerationColors 1 (getColorCountForLevel 1)).flatMap fun c =>
            List.replicate 4 c)) :=
  ⟨by decide, by decide, List.Perm.refl _,
    generateLevel_spec 1 (fun l => l) (by decide) (by decide) (List.Perm.refl _)⟩

end LevelData
